import Mathlib

/-!
Shallow embedding of `anemoi/models/data_indices/tensor.py` and
`anemoi/models/data_indices/index.py`.

A Python `dict[str, int]` is embedded as an association list
`List (String × Nat)` that preserves insertion order; dict-specific facts
(keys are unique) appear as explicit hypotheses where a theorem needs them.
The Python `sorted` builtin (ascending) is embedded as `List.insertionSort (· ≤ ·)`:
for lists of naturals the stable ascending sort is uniquely determined, so
any correct sorting routine denotes the same function.
The `assert` at construction time is embedded by returning
`Except (List String)`, the error carrying the offending-variable list from
the assert message.
-/

namespace AnemoiModels

/-- The `name_to_index` dictionary: variable name to tensor position. -/
abbrev NameToIndex := List (String × Nat)

/-- Embeds `name_to_index.keys()`: the key list in insertion order. -/
def keys (m : NameToIndex) : List String := m.map Prod.fst

/-- A Python dict never maps one key to two values and has unique keys; a
dict that is additionally injective maps distinct keys to distinct values.
On the association-list embedding: entries with equal values have equal
names. -/
abbrev valuesInjOn (m : NameToIndex) : Prop :=
  ∀ p ∈ m, ∀ q ∈ m, p.2 = q.2 → p.1 = q.1

/-- Embeds the generator expression of `_build_idx_from_list`:
`(i for name, i in self.name_to_index.items() if name in var_list)` —
the positions, in mapping iteration order, of the mapping entries whose name
occurs in `var_list`. -/
def rolePositions (m : NameToIndex) (var_list : List String) : List Nat :=
  (m.filter fun p => decide (p.1 ∈ var_list)).map Prod.snd

/-- Embeds `BaseTensorIndex._build_idx_from_list`:
`sorted(i for name, i in self.name_to_index.items() if name in var_list)`.
Iterates the mapping entries, keeps positions whose name occurs in
`var_list`, and sorts ascending. -/
def build_idx_from_list (m : NameToIndex) (var_list : List String) : List Nat :=
  List.insertionSort (· ≤ ·) (rolePositions m var_list)

/-- Embeds the state of a constructed `BaseTensorIndex`: the stored mapping,
the stored `includes` list, and the five computed position arrays. -/
structure BaseTensorIndex where
  name_to_index : NameToIndex
  includes : List String
  prognostic : List Nat
  diagnostic : List Nat
  forcing : List Nat
  targets : List Nat
  full : List Nat
deriving Repr, DecidableEq, Inhabited

/-- Embeds `BaseTensorIndex.__init__`: first the `assert
set(includes).issubset(name_to_index.keys())` whose failure message lists
`[var for var in includes if var not in self.name_to_index]`, then the five
`_build_idx_from_list` calls. -/
def BaseTensorIndex.make (prognostic diagnostic forcing targets includes : List String)
    (name_to_index : NameToIndex) : Except (List String) BaseTensorIndex :=
  if includes.all fun v => decide (v ∈ keys name_to_index) then
    .ok
      { name_to_index := name_to_index
        includes := includes
        prognostic := build_idx_from_list name_to_index prognostic
        diagnostic := build_idx_from_list name_to_index diagnostic
        forcing := build_idx_from_list name_to_index forcing
        targets := build_idx_from_list name_to_index targets
        full := build_idx_from_list name_to_index includes }
  else
    .error (includes.filter fun v => decide (¬ v ∈ keys name_to_index))

/-- Embeds `BaseTensorIndex.__len__` / `OutputTensorIndex.__len__`:
`len(self.full)`. -/
def BaseTensorIndex.len (t : BaseTensorIndex) : Nat := t.full.length

/-- Embeds `BaseTensorIndex.todict`: a dict with the five fixed keys, each
holding the corresponding index array. -/
def BaseTensorIndex.todict (t : BaseTensorIndex) : List (String × List Nat) :=
  [("prognostic", t.prognostic), ("diagnostic", t.diagnostic),
   ("forcing", t.forcing), ("targets", t.targets), ("full", t.full)]

/-- Embeds an `InputTensorIndex`: the base state plus the two kwarg lists
`known_future_variables` and `additional_model_variables`, which are used
only for the length computation. -/
structure InputTensorIndex where
  base : BaseTensorIndex
  known_future_variables : List String
  additional_model_variables : List String
deriving Repr, DecidableEq, Inhabited

/-- Embeds `InputTensorIndex.__init__` (defaults `[]` for the kwargs are
supplied by the caller). -/
def InputTensorIndex.make (prognostic diagnostic forcing targets includes : List String)
    (name_to_index : NameToIndex)
    (known_future_variables additional_model_variables : List String) :
    Except (List String) InputTensorIndex :=
  (BaseTensorIndex.make prognostic diagnostic forcing targets includes name_to_index).map
    fun b =>
      { base := b
        known_future_variables := known_future_variables
        additional_model_variables := additional_model_variables }

/-- Embeds `InputTensorIndex.__len__`:
`len(prognostic) + len(forcing) + 2*len(known_future) + len(additional)`. -/
def InputTensorIndex.len (t : InputTensorIndex) : Nat :=
  t.base.prognostic.length + t.base.forcing.length
    + 2 * t.known_future_variables.length + t.additional_model_variables.length

/-- Embeds an `OutputTensorIndex`: same state as the base class. -/
structure OutputTensorIndex where
  base : BaseTensorIndex
deriving Repr, DecidableEq, Inhabited

/-- Embeds `OutputTensorIndex.__init__`. -/
def OutputTensorIndex.make (prognostic diagnostic forcing targets includes : List String)
    (name_to_index : NameToIndex) : Except (List String) OutputTensorIndex :=
  (BaseTensorIndex.make prognostic diagnostic forcing targets includes name_to_index).map
    OutputTensorIndex.mk

/-- Embeds `OutputTensorIndex.__len__`: `len(self.full)`. -/
def OutputTensorIndex.len (t : OutputTensorIndex) : Nat := t.base.full.length

/-- Embeds the elementwise test of `torch.allclose` with its default
tolerances `rtol=1e-5`, `atol=1e-8` on integer positions, in exact
arithmetic: `|a - b| <= 1e-8 + 1e-5 * |b|`, scaled by `10^8`. -/
def closeNat (a b : Nat) : Bool :=
  ((a : Int) - (b : Int)).natAbs * 100000000 ≤ 1 + 1000 * b

/-- Embeds `torch.allclose` on two 1-D integer tensors, including its
broadcasting rule: equal lengths compare elementwise; a length-1 (or
length-0 against length-1) operand broadcasts; any other length mismatch
raises (`none`). -/
def allclose (a b : List Nat) : Option Bool :=
  if a.length = b.length then
    some ((a.zip b).all fun p => closeNat p.1 p.2)
  else if a.length = 1 then
    some (b.all fun y => closeNat (a.headD 0) y)
  else if b.length = 1 then
    some (a.all fun x => closeNat x (b.headD 0))
  else
    none

/-- Result of a Python `__eq__` call: `NotImplemented`, a raised exception,
or a boolean. -/
inductive PyEqResult where
  | notImplemented
  | raised
  | value (b : Bool)
deriving Repr, DecidableEq

/-- Embeds one step of the short-circuit `and` chain over `torch.allclose`
results: a raise propagates, `False` short-circuits, `True` continues. -/
def andThenClose (r : Option Bool) (rest : Unit → PyEqResult) : PyEqResult :=
  match r with
  | none => .raised
  | some false => .value false
  | some true => rest ()

/-- Embeds the final operand of the `and` chain: the last `torch.allclose`
result is returned as the value of `__eq__` (or propagates a raise). -/
def lastClose (r : Option Bool) : PyEqResult :=
  match r with
  | none => .raised
  | some b => .value b

/-- Embeds `BaseTensorIndex.__eq__`: `NotImplemented` for a non-
`BaseTensorIndex` operand (embedded as `none`), otherwise the `and` chain of
the five `torch.allclose` calls. -/
def BaseTensorIndex.pyEq (t : BaseTensorIndex) (other : Option BaseTensorIndex) : PyEqResult :=
  match other with
  | none => .notImplemented
  | some u =>
    andThenClose (allclose t.prognostic u.prognostic) fun _ =>
    andThenClose (allclose t.diagnostic u.diagnostic) fun _ =>
    andThenClose (allclose t.forcing u.forcing) fun _ =>
    andThenClose (allclose t.targets u.targets) fun _ =>
    lastClose (allclose t.full u.full)

/-- Embeds `DataIndex.__init__`-derived prognostic list (same expression in
`ModelIndex.__init__`):
`[v for v in name_to_index.keys() if v not in set(forcing + diagnostic + targets)]`. -/
def derive_prognostic (forcing diagnostic targets : List String) (m : NameToIndex) :
    List String :=
  (keys m).filter fun v => decide (¬ v ∈ forcing ++ diagnostic ++ targets)

/-- Embeds a constructed `DataIndex`: the stored role lists, the derived
prognostic list, the mapping, and the two tensor indices. -/
structure DataIndex where
  diagnostic : List String
  forcing : List String
  targets : List String
  prognostic : List String
  name_to_index : NameToIndex
  input : InputTensorIndex
  output : OutputTensorIndex
deriving Repr, DecidableEq, Inhabited

/-- Embeds `DataIndex.__init__`: derive prognostic, build the input index
over `forcing + prognostic` (no kwargs, so both extra lists default to
`[]`), then the output index over `diagnostic + targets`, both against the
single shared mapping. The first failing assert wins, as in Python. -/
def DataIndex.make (diagnostic forcing targets : List String) (name_to_index : NameToIndex) :
    Except (List String) DataIndex :=
  let prognostic := derive_prognostic forcing diagnostic targets name_to_index
  match InputTensorIndex.make prognostic diagnostic forcing targets
      (forcing ++ prognostic) name_to_index [] [] with
  | .error e => .error e
  | .ok input =>
  match OutputTensorIndex.make prognostic diagnostic forcing targets
      (diagnostic ++ targets) name_to_index with
  | .error e => .error e
  | .ok output =>
    .ok
      { diagnostic := diagnostic
        forcing := forcing
        targets := targets
        prognostic := prognostic
        name_to_index := name_to_index
        input := input
        output := output }

/-- Embeds a constructed `ModelIndex`: separate input/output mappings plus
the known-future and additional variable lists. -/
structure ModelIndex where
  diagnostic : List String
  forcing : List String
  targets : List String
  prognostic : List String
  known_future_variables : List String
  additional_model_variables : List String
  name_to_index_model_input : NameToIndex
  name_to_index_model_output : NameToIndex
  input : InputTensorIndex
  output : OutputTensorIndex
deriving Repr, DecidableEq, Inhabited

/-- Embeds `ModelIndex.__init__`: derive prognostic from the input mapping,
build the input index over `forcing + prognostic` against the input mapping
(forwarding the two kwarg lists), then the output index over
`diagnostic + targets` against the output mapping. -/
def ModelIndex.make (diagnostic forcing targets : List String)
    (name_to_index_model_input name_to_index_model_output : NameToIndex)
    (known_future_variables additional_model_variables : List String) :
    Except (List String) ModelIndex :=
  let prognostic := derive_prognostic forcing diagnostic targets name_to_index_model_input
  match InputTensorIndex.make prognostic diagnostic forcing targets
      (forcing ++ prognostic) name_to_index_model_input
      known_future_variables additional_model_variables with
  | .error e => .error e
  | .ok input =>
  match OutputTensorIndex.make prognostic diagnostic forcing targets
      (diagnostic ++ targets) name_to_index_model_output with
  | .error e => .error e
  | .ok output =>
    .ok
      { diagnostic := diagnostic
        forcing := forcing
        targets := targets
        prognostic := prognostic
        known_future_variables := known_future_variables
        additional_model_variables := additional_model_variables
        name_to_index_model_input := name_to_index_model_input
        name_to_index_model_output := name_to_index_model_output
        input := input
        output := output }

/-- Embeds `BaseIndex.todict` for a `DataIndex`:
`{"input": input.todict(), "output": output.todict()}`. -/
def DataIndex.todict (di : DataIndex) : List (String × List (String × List Nat)) :=
  [("input", di.input.base.todict), ("output", di.output.base.todict)]

/-- Embeds `BaseIndex.todict` for a `ModelIndex`. -/
def ModelIndex.todict (mi : ModelIndex) : List (String × List (String × List Nat)) :=
  [("input", mi.input.base.todict), ("output", mi.output.base.todict)]

/-- Embeds one step of the Python `and` between two `==` results on tensor
indices: a raise propagates, `False` short-circuits; `NotImplemented` is
truthy in Python, so `NotImplemented and x` evaluates `x`. -/
def andThenEq (r : PyEqResult) (rest : Unit → PyEqResult) : PyEqResult :=
  match r with
  | .raised => .raised
  | .value false => .value false
  | .value true => rest ()
  | .notImplemented => rest ()

/-- Embeds `BaseIndex.__eq__` on the `(input, output)` pair of tensor
indices: `NotImplemented` for a non-`BaseIndex` operand (embedded as
`none`), otherwise `self.input == other.input and self.output == other.output`. -/
def baseIndexPyEq (self : InputTensorIndex × OutputTensorIndex)
    (other : Option (InputTensorIndex × OutputTensorIndex)) : PyEqResult :=
  match other with
  | none => .notImplemented
  | some o =>
    andThenEq (self.1.base.pyEq (some o.1.base)) fun _ =>
      self.2.base.pyEq (some o.2.base)

/-- Specification predicate for one role index array `arr` against role name
list `R`: `arr` is a sorted permutation of the positions of the mapping
entries whose name is in `R` (hence the ascending sort of the positions of
`R` intersected with the mapping keys), is strictly ascending, every entry
of `arr` is the position of some name that is in `R` and a mapping key, and
no position of a name outside `R` appears in `arr`. -/
def roleIndexCorrect (m : NameToIndex) (R : List String) (arr : List Nat) : Prop :=
  arr.Perm (rolePositions m R)
  ∧ arr.Sorted (· ≤ ·)
  ∧ arr.Sorted (· < ·)
  ∧ (∀ a ∈ arr, ∃ n, (n, a) ∈ m ∧ n ∈ R)
  ∧ (∀ a ∈ arr, ∀ n, (n, a) ∈ m → n ∈ R)

/-- Specification predicate for a derived prognostic list `p` of a
VariableIndex built over role lists `d` (diagnostic), `f` (forcing), `g`
(targets) and mapping `m`: `p` is the stored derived list, a sublist of the
key list (so it follows the mapping key iteration order), its members are
exactly the keys outside d ∪ f ∪ g (hence it is disjoint from d ∪ f ∪ g),
and — only when d, f, g are subsets of the keys — p ∪ d ∪ f ∪ g is exactly
the full key set. -/
def prognosticComplementCorrect (d f g : List String) (m : NameToIndex)
    (p : List String) : Prop :=
  p = derive_prognostic f d g m
  ∧ List.Sublist p (keys m)
  ∧ (∀ v, v ∈ p ↔ v ∈ keys m ∧ ¬(v ∈ d ∨ v ∈ f ∨ v ∈ g))
  ∧ (∀ v ∈ p, ¬(v ∈ d ∨ v ∈ f ∨ v ∈ g))
  ∧ ((∀ v ∈ d, v ∈ keys m) → (∀ v ∈ f, v ∈ keys m) → (∀ v ∈ g, v ∈ keys m) →
      ∀ v, (v ∈ p ∨ v ∈ d ∨ v ∈ f ∨ v ∈ g) ↔ v ∈ keys m)

/-! ### Concrete fixtures used by the witness theorems.
`egM` is the example mapping of the specification:
`{"t": 0, "u": 1, "v": 2, "z": 3, "sp": 4}`. -/

def egM : NameToIndex := [("t", 0), ("u", 1), ("v", 2), ("z", 3), ("sp", 4)]

def egT : BaseTensorIndex :=
  (BaseTensorIndex.make ["t"] ["z"] ["sp"] [] ["sp", "t", "u"] egM).toOption.get!

def egTdup : BaseTensorIndex :=
  (BaseTensorIndex.make ["t", "t"] ["z"] ["sp", "qq"] ["u"] ["u", "u", "t"] egM).toOption.get!

def egDI : DataIndex := (DataIndex.make ["z"] ["sp"] [] egM).toOption.get!

def egMI : ModelIndex :=
  (ModelIndex.make ["z"] ["sp"] [] egM [("z", 0)] ["sp"] []).toOption.get!

def egMIOutOnly : ModelIndex :=
  (ModelIndex.make ["w"] ["t"] [] egM
    [("w", 0), ("t", 1), ("u", 2), ("v", 3), ("z", 4), ("sp", 5)] ["sp"] []).toOption.get!

def egIn : InputTensorIndex :=
  (InputTensorIndex.make ["t"] ["z"] ["sp"] [] ["t", "u"] egM ["sp"] ["extra"]).toOption.get!

def egOut : OutputTensorIndex :=
  (OutputTensorIndex.make ["t"] ["z"] ["sp"] [] ["z"] egM).toOption.get!

/-! ### Helper lemmas about `_build_idx_from_list` -/

theorem build_idx_perm (m : NameToIndex) (vl : List String) :
    (build_idx_from_list m vl).Perm (rolePositions m vl) :=
  List.perm_insertionSort _ _

theorem build_idx_sorted (m : NameToIndex) (vl : List String) :
    (build_idx_from_list m vl).Sorted (· ≤ ·) :=
  List.sorted_insertionSort _ _

theorem mem_rolePositions {m : NameToIndex} {vl : List String} {a : Nat} :
    a ∈ rolePositions m vl ↔ ∃ n, (n, a) ∈ m ∧ n ∈ vl := by
  constructor
  · intro h
    obtain ⟨p, hp, rfl⟩ := List.mem_map.mp h
    obtain ⟨hm, hvl⟩ := List.mem_filter.mp hp
    exact ⟨p.1, hm, of_decide_eq_true hvl⟩
  · rintro ⟨n, hm, hvl⟩
    exact List.mem_map.mpr ⟨(n, a), List.mem_filter.mpr ⟨hm, decide_eq_true hvl⟩, rfl⟩

theorem mem_build_idx {m : NameToIndex} {vl : List String} {a : Nat} :
    a ∈ build_idx_from_list m vl ↔ ∃ n, (n, a) ∈ m ∧ n ∈ vl :=
  ((build_idx_perm m vl).mem_iff).trans mem_rolePositions

theorem entries_nodup {m : NameToIndex} (hk : (keys m).Nodup) : m.Nodup :=
  List.Nodup.of_map _ hk

theorem rolePositions_nodup {m : NameToIndex} {vl : List String}
    (hk : (keys m).Nodup) (hv : valuesInjOn m) : (rolePositions m vl).Nodup := by
  refine List.Nodup.map_on ?_ ((entries_nodup hk).filter _)
  intro p hp q hq hpq
  have hpm := (List.mem_filter.mp hp).1
  have hqm := (List.mem_filter.mp hq).1
  exact Prod.ext (hv p hpm q hqm hpq) hpq

theorem build_idx_nodup {m : NameToIndex} {vl : List String}
    (hk : (keys m).Nodup) (hv : valuesInjOn m) : (build_idx_from_list m vl).Nodup :=
  ((build_idx_perm m vl).nodup_iff).mpr (rolePositions_nodup hk hv)

theorem build_idx_strict {m : NameToIndex} {vl : List String}
    (hk : (keys m).Nodup) (hv : valuesInjOn m) :
    (build_idx_from_list m vl).Sorted (· < ·) :=
  (build_idx_sorted m vl).lt_of_le (build_idx_nodup hk hv)

theorem build_idx_congr {m : NameToIndex} {l₁ l₂ : List String}
    (h : ∀ v, v ∈ l₁ ↔ v ∈ l₂) : build_idx_from_list m l₁ = build_idx_from_list m l₂ := by
  unfold build_idx_from_list rolePositions
  congr 2
  apply List.filter_congr
  intro p _
  simp only [decide_eq_decide]
  exact h p.1

theorem build_idx_length (m : NameToIndex) (vl : List String) :
    (build_idx_from_list m vl).length = (m.filter fun p => decide (p.1 ∈ vl)).length := by
  rw [(build_idx_perm m vl).length_eq]
  exact List.length_map _ _

/-! ### Helper lemmas about construction -/

theorem make_ok_fields {prog diag forc targ includes : List String} {m : NameToIndex}
    {t : BaseTensorIndex}
    (h : BaseTensorIndex.make prog diag forc targ includes m = .ok t) :
    t.name_to_index = m ∧ t.includes = includes ∧
      t.prognostic = build_idx_from_list m prog ∧
      t.diagnostic = build_idx_from_list m diag ∧
      t.forcing = build_idx_from_list m forc ∧
      t.targets = build_idx_from_list m targ ∧
      t.full = build_idx_from_list m includes := by
  unfold BaseTensorIndex.make at h
  split at h
  · cases h
    exact ⟨rfl, rfl, rfl, rfl, rfl, rfl, rfl⟩
  · cases h

theorem make_ok_of_subset {prog diag forc targ includes : List String} {m : NameToIndex}
    (h : ∀ v ∈ includes, v ∈ keys m) :
    BaseTensorIndex.make prog diag forc targ includes m =
      .ok { name_to_index := m
            includes := includes
            prognostic := build_idx_from_list m prog
            diagnostic := build_idx_from_list m diag
            forcing := build_idx_from_list m forc
            targets := build_idx_from_list m targ
            full := build_idx_from_list m includes } := by
  unfold BaseTensorIndex.make
  rw [if_pos]
  exact List.all_eq_true.mpr fun v hv => decide_eq_true (h v hv)

theorem make_error_of_missing {prog diag forc targ includes : List String} {m : NameToIndex}
    (h : ∃ v ∈ includes, ¬ v ∈ keys m) :
    BaseTensorIndex.make prog diag forc targ includes m =
      .error (includes.filter fun v => decide (¬ v ∈ keys m)) := by
  unfold BaseTensorIndex.make
  rw [if_neg]
  intro hall
  obtain ⟨v, hv, hnk⟩ := h
  exact hnk (of_decide_eq_true (List.all_eq_true.mp hall v hv))

theorem make_subset_of_ok {prog diag forc targ includes : List String} {m : NameToIndex}
    {t : BaseTensorIndex}
    (h : BaseTensorIndex.make prog diag forc targ includes m = .ok t) :
    ∀ v ∈ includes, v ∈ keys m := by
  intro v hv
  by_contra hnk
  rw [make_error_of_missing ⟨v, hv, hnk⟩] at h
  cases h

theorem inputMake_ok {prog diag forc targ includes kf add : List String} {m : NameToIndex}
    {t : InputTensorIndex}
    (h : InputTensorIndex.make prog diag forc targ includes m kf add = .ok t) :
    BaseTensorIndex.make prog diag forc targ includes m = .ok t.base
    ∧ t.known_future_variables = kf ∧ t.additional_model_variables = add := by
  unfold InputTensorIndex.make at h
  cases hb : BaseTensorIndex.make prog diag forc targ includes m with
  | error e => rw [hb] at h; simp [Except.map] at h
  | ok b =>
    rw [hb] at h
    simp only [Except.map, Except.ok.injEq] at h
    subst h
    exact ⟨rfl, rfl, rfl⟩

theorem outputMake_ok {prog diag forc targ includes : List String} {m : NameToIndex}
    {t : OutputTensorIndex}
    (h : OutputTensorIndex.make prog diag forc targ includes m = .ok t) :
    BaseTensorIndex.make prog diag forc targ includes m = .ok t.base := by
  unfold OutputTensorIndex.make at h
  cases hb : BaseTensorIndex.make prog diag forc targ includes m with
  | error e => rw [hb] at h; simp [Except.map] at h
  | ok b =>
    rw [hb] at h
    simp only [Except.map, Except.ok.injEq] at h
    subst h
    exact rfl

theorem dataIndex_make_ok {d f g : List String} {m : NameToIndex} {di : DataIndex}
    (h : DataIndex.make d f g m = .ok di) :
    InputTensorIndex.make (derive_prognostic f d g m) d f g
        (f ++ derive_prognostic f d g m) m [] [] = .ok di.input
    ∧ OutputTensorIndex.make (derive_prognostic f d g m) d f g (d ++ g) m = .ok di.output
    ∧ di.prognostic = derive_prognostic f d g m
    ∧ di.diagnostic = d ∧ di.forcing = f ∧ di.targets = g ∧ di.name_to_index = m := by
  unfold DataIndex.make at h
  dsimp only at h
  split at h
  · cases h
  · split at h
    · cases h
    · cases h
      refine ⟨?_, ?_, rfl, rfl, rfl, rfl, rfl⟩ <;> assumption

theorem modelIndex_make_ok {d f g kf add : List String} {mIn mOut : NameToIndex}
    {mi : ModelIndex}
    (h : ModelIndex.make d f g mIn mOut kf add = .ok mi) :
    InputTensorIndex.make (derive_prognostic f d g mIn) d f g
        (f ++ derive_prognostic f d g mIn) mIn kf add = .ok mi.input
    ∧ OutputTensorIndex.make (derive_prognostic f d g mIn) d f g (d ++ g) mOut = .ok mi.output
    ∧ mi.prognostic = derive_prognostic f d g mIn
    ∧ mi.known_future_variables = kf ∧ mi.additional_model_variables = add := by
  unfold ModelIndex.make at h
  dsimp only at h
  split at h
  · cases h
  · split at h
    · cases h
    · cases h
      refine ⟨?_, ?_, rfl, rfl, rfl⟩ <;> assumption

/-! ### Helper lemmas about the derived prognostic list -/

theorem mem_derive_prognostic {f d g : List String} {m : NameToIndex} {v : String} :
    v ∈ derive_prognostic f d g m ↔ v ∈ keys m ∧ ¬(v ∈ d ∨ v ∈ f ∨ v ∈ g) := by
  unfold derive_prognostic
  rw [List.mem_filter]
  simp only [decide_eq_true_iff, List.mem_append]
  tauto

theorem derive_prognostic_sublist (f d g : List String) (m : NameToIndex) :
    List.Sublist (derive_prognostic f d g m) (keys m) :=
  List.filter_sublist _

theorem derive_prognostic_subset_keys {f d g : List String} {m : NameToIndex} :
    ∀ v ∈ derive_prognostic f d g m, v ∈ keys m :=
  fun _ hv => (mem_derive_prognostic.mp hv).1

theorem derive_prognostic_correct (d f g : List String) (m : NameToIndex) :
    prognosticComplementCorrect d f g m (derive_prognostic f d g m) := by
  refine ⟨rfl, derive_prognostic_sublist f d g m, fun _ => mem_derive_prognostic,
    fun v hv => (mem_derive_prognostic.mp hv).2, fun hd hf hg v => ?_⟩
  constructor
  · rintro (hp | h | h | h)
    · exact (mem_derive_prognostic.mp hp).1
    · exact hd v h
    · exact hf v h
    · exact hg v h
  · intro hkv
    by_cases hmem : v ∈ d ∨ v ∈ f ∨ v ∈ g
    · tauto
    · exact Or.inl (mem_derive_prognostic.mpr ⟨hkv, hmem⟩)

/-! ### Helper lemmas about lengths and allclose -/

theorem length_filter_append_disjoint (m : NameToIndex) (A B : List String)
    (hd : ∀ v, v ∈ A → v ∈ B → False) :
    (m.filter fun p => decide (p.1 ∈ A ++ B)).length
      = (m.filter fun p => decide (p.1 ∈ A)).length
        + (m.filter fun p => decide (p.1 ∈ B)).length := by
  induction m with
  | nil => rfl
  | cons p ps ih =>
    rw [List.filter_cons, List.filter_cons, List.filter_cons]
    by_cases hA : p.1 ∈ A <;> by_cases hB : p.1 ∈ B
    · exact absurd hB fun hb => hd p.1 hA hb
    · rw [if_pos (decide_eq_true (List.mem_append_left B hA)),
        if_pos (decide_eq_true hA), if_neg (by simpa using hB)]
      simp only [List.length_cons]
      omega
    · rw [if_pos (decide_eq_true (List.mem_append_right A hB)),
        if_neg (by simpa using hA), if_pos (decide_eq_true hB)]
      simp only [List.length_cons]
      omega
    · rw [if_neg (by simp [List.mem_append, hA, hB]),
        if_neg (by simpa using hA), if_neg (by simpa using hB)]
      omega

theorem closeNat_iff_of_small {a b : Nat} (hb : b < 100000) :
    closeNat a b = true ↔ a = b := by
  unfold closeNat
  rw [decide_eq_true_iff]
  omega

theorem zip_all_close_iff {a b : List Nat} (hlen : a.length = b.length)
    (hsmall : ∀ x ∈ b, x < 100000) :
    ((a.zip b).all fun p => closeNat p.1 p.2) = true ↔ a = b := by
  induction a generalizing b with
  | nil =>
    cases b with
    | nil => simp
    | cons y ys => simp at hlen
  | cons x xs ih =>
    cases b with
    | nil => simp at hlen
    | cons y ys =>
      simp only [List.zip_cons_cons, List.all_cons, Bool.and_eq_true, List.cons.injEq]
      rw [ih (by simpa using hlen) fun u hu => hsmall u (List.mem_cons_of_mem _ hu),
        closeNat_iff_of_small (hsmall y (List.mem_cons_self _ _))]

theorem allclose_of_length_eq {a b : List Nat} (h : a.length = b.length) :
    allclose a b = some ((a.zip b).all fun p => closeNat p.1 p.2) := by
  unfold allclose
  rw [if_pos h]

theorem andThenClose_eq_value_true {r : Option Bool} {rest : Unit → PyEqResult} :
    andThenClose r rest = .value true ↔ r = some true ∧ rest () = .value true := by
  match r with
  | none => simp [andThenClose]
  | some false => simp [andThenClose]
  | some true => simp [andThenClose]

theorem lastClose_eq_value_true {r : Option Bool} :
    lastClose r = .value true ↔ r = some true := by
  match r with
  | none => simp [lastClose]
  | some b => simp [lastClose]

theorem build_idx_correct {m : NameToIndex} {vl : List String}
    (hk : (keys m).Nodup) (hv : valuesInjOn m) :
    roleIndexCorrect m vl (build_idx_from_list m vl) :=
  ⟨build_idx_perm m vl, build_idx_sorted m vl, build_idx_strict hk hv,
    fun _ ha => mem_build_idx.mp ha,
    fun a ha n hn => by
      obtain ⟨n0, hn0, hR⟩ := mem_build_idx.mp ha
      have hnn : n = n0 := hv (n, a) hn (n0, a) hn0 rfl
      rw [hnn]
      exact hR⟩

theorem inputMake_error {prog diag forc targ includes kf add : List String}
    {m : NameToIndex} (h : ∃ v ∈ includes, ¬ v ∈ keys m) :
    InputTensorIndex.make prog diag forc targ includes m kf add =
      .error (includes.filter fun v => decide (¬ v ∈ keys m)) := by
  unfold InputTensorIndex.make
  rw [make_error_of_missing h]
  rfl

theorem inputMake_ok_of_subset {prog diag forc targ includes kf add : List String}
    {m : NameToIndex} (h : ∀ v ∈ includes, v ∈ keys m) :
    InputTensorIndex.make prog diag forc targ includes m kf add =
      .ok { base := { name_to_index := m
                      includes := includes
                      prognostic := build_idx_from_list m prog
                      diagnostic := build_idx_from_list m diag
                      forcing := build_idx_from_list m forc
                      targets := build_idx_from_list m targ
                      full := build_idx_from_list m includes }
            known_future_variables := kf
            additional_model_variables := add } := by
  unfold InputTensorIndex.make
  rw [make_ok_of_subset h]
  rfl

theorem outputMake_error {prog diag forc targ includes : List String}
    {m : NameToIndex} (h : ∃ v ∈ includes, ¬ v ∈ keys m) :
    OutputTensorIndex.make prog diag forc targ includes m =
      .error (includes.filter fun v => decide (¬ v ∈ keys m)) := by
  unfold OutputTensorIndex.make
  rw [make_error_of_missing h]
  rfl

/-! ### Claim theorems -/

/-- C1: for every TensorIndex constructed with an `includes` list whose
names are all mapping keys, `full` is — unconditionally — a sorted
(ascending) permutation of the positions of the includes names that are
mapping keys, i.e. it equals the ascending sort of those positions, and its
entries are exactly those positions; given additionally a duplicate-free
`includes` and an injective mapping (distinct keys, distinct values),
`full` is strictly ascending with no duplicate entries. -/
theorem full_is_sorted_included_positions
    (prog diag forc targ includes : List String) (m : NameToIndex)
    {t : BaseTensorIndex}
    (hmk : BaseTensorIndex.make prog diag forc targ includes m = .ok t) :
    t.full.Perm (rolePositions m includes)
    ∧ t.full.Sorted (· ≤ ·)
    ∧ (∀ a, a ∈ t.full ↔ ∃ n, (n, a) ∈ m ∧ n ∈ includes)
    ∧ (includes.Nodup → (keys m).Nodup → valuesInjOn m →
        t.full.Sorted (· < ·) ∧ t.full.Nodup) := by
  obtain ⟨-, -, -, -, -, -, hfull⟩ := make_ok_fields hmk
  rw [hfull]
  exact ⟨build_idx_perm m includes, build_idx_sorted m includes,
    fun _ => mem_build_idx,
    fun _ hk hv => ⟨build_idx_strict hk hv, build_idx_nodup hk hv⟩⟩

/-- C1 witness: the constructed example index has
`full = [0, 1, 4]` for `includes = ["sp", "t", "u"]` over the example
mapping; the theorem applies to it and the inner givens (duplicate-free
includes, injective mapping) hold by evaluation. -/
theorem full_is_sorted_included_positions_witness :
    egT.full.Perm (rolePositions egM ["sp", "t", "u"])
    ∧ egT.full.Sorted (· ≤ ·)
    ∧ egT.full.Sorted (· < ·) ∧ egT.full.Nodup := by
  have h := full_is_sorted_included_positions ["t"] ["z"] ["sp"] [] ["sp", "t", "u"] egM
    (t := egT) (by rfl)
  exact ⟨h.1, h.2.1, (h.2.2.2 (by decide) (by decide) (by decide)).1,
    (h.2.2.2 (by decide) (by decide) (by decide)).2⟩

/-- C2: for every DataIndex construction and every ModelIndex construction
(each over its own role lists and mappings), the stored derived `prognostic`
satisfies `prognosticComplementCorrect` unconditionally: it equals the
filter of the (input) mapping keys in key iteration order (a sublist of the
key list), its members are exactly the keys outside
diagnostic ∪ forcing ∪ targets, it is disjoint from that union, and — when
diagnostic, forcing, targets are subsets of the keys — prognostic ∪
diagnostic ∪ forcing ∪ targets equals the full key set. -/
theorem prognostic_is_key_complement (d f g d2 f2 g2 kf add : List String)
    (m m2 mOut : NameToIndex) {x : DataIndex} {y : ModelIndex}
    (hdi : DataIndex.make d f g m = .ok x)
    (hmi : ModelIndex.make d2 f2 g2 m2 mOut kf add = .ok y) :
    prognosticComplementCorrect d f g m x.prognostic
    ∧ prognosticComplementCorrect d2 f2 g2 m2 y.prognostic := by
  rw [(dataIndex_make_ok hdi).2.2.1, (modelIndex_make_ok hmi).2.2.1]
  exact ⟨derive_prognostic_correct d f g m, derive_prognostic_correct d2 f2 g2 m2⟩

/-- C2 witness: the example DataIndex and a ModelIndex whose diagnostic name
`"w"` is a key only of the output mapping; both derived prognostics satisfy
the predicate. -/
theorem prognostic_is_key_complement_witness :
    prognosticComplementCorrect ["z"] ["sp"] [] egM egDI.prognostic
    ∧ prognosticComplementCorrect ["w"] ["t"] [] egM egMIOutOnly.prognostic :=
  prognostic_is_key_complement ["z"] ["sp"] [] ["w"] ["t"] [] ["sp"] [] egM egM
    [("w", 0), ("t", 1), ("u", 2), ("v", 3), ("z", 4), ("sp", 5)]
    (x := egDI) (y := egMIOutOnly) (by rfl) (by rfl)

/-- C3: for every validly constructed Output TensorIndex, `length()` is
`len(full)`; for every validly constructed Input TensorIndex, `length()` is
`len(prognostic) + len(forcing) + 2*len(known_future) + len(additional)`,
where `known_future` and `additional` contribute only their cardinality. -/
theorem length_policies (p1 d1 f1 g1 i1 p2 d2 f2 g2 i2 kf add : List String)
    (m1 m2 : NameToIndex) {o : OutputTensorIndex} {t : InputTensorIndex}
    (_ho : OutputTensorIndex.make p1 d1 f1 g1 i1 m1 = .ok o)
    (hi : InputTensorIndex.make p2 d2 f2 g2 i2 m2 kf add = .ok t) :
    o.len = o.base.full.length
    ∧ t.len = t.base.prognostic.length + t.base.forcing.length
        + 2 * kf.length + add.length := by
  obtain ⟨-, hkf, hadd⟩ := inputMake_ok hi
  refine ⟨rfl, ?_⟩
  rw [← hkf, ← hadd]
  rfl

/-- C3 witness: the example Output index has length 1 and the example Input
index (one known-future variable, one additional variable) has length
`1 + 1 + 2*1 + 1 = 5`. -/
theorem length_policies_witness :
    egOut.len = egOut.base.full.length
    ∧ egIn.len = egIn.base.prognostic.length + egIn.base.forcing.length
        + 2 * (["sp"] : List String).length + (["extra"] : List String).length := by
  exact length_policies ["t"] ["z"] ["sp"] [] ["z"] ["t"] ["z"] ["sp"] [] ["t", "u"]
    ["sp"] ["extra"] egM egM (o := egOut) (t := egIn) (by rfl) (by rfl)

/-- C4: constructing with `includes` containing a name that is not a mapping
key fails, with an error listing exactly the offending names (in `includes`
order); when every `includes` name is a key, construction succeeds no matter
what the role lists contain — role-list names absent from the mapping raise
nothing and are silently excluded from the produced role arrays. -/
theorem invalid_includes_error (prog diag forc targ bad good : List String)
    (m : NameToIndex)
    (hbad : ∃ v ∈ bad, ¬ v ∈ keys m) (hgood : ∀ v ∈ good, v ∈ keys m) :
    BaseTensorIndex.make prog diag forc targ bad m =
      .error (bad.filter fun v => decide (¬ v ∈ keys m))
    ∧ (∀ v, v ∈ (bad.filter fun v => decide (¬ v ∈ keys m)) ↔ v ∈ bad ∧ ¬ v ∈ keys m)
    ∧ ∃ u, BaseTensorIndex.make prog diag forc targ good m = .ok u
        ∧ (∀ a ∈ u.prognostic, ∃ n, (n, a) ∈ m ∧ n ∈ prog)
        ∧ (∀ a ∈ u.forcing, ∃ n, (n, a) ∈ m ∧ n ∈ forc) := by
  refine ⟨make_error_of_missing hbad, fun v => ?_, ?_⟩
  · rw [List.mem_filter]
    simp
  · refine ⟨_, make_ok_of_subset hgood, fun a ha => mem_build_idx.mp ha,
      fun a ha => mem_build_idx.mp ha⟩

/-- C4 witness: `includes = ["qq", "t"]` over the example mapping fails with
exactly `["qq"]`; with valid includes, construction succeeds even though the
role lists mention the unknown name `"qq"`. -/
theorem invalid_includes_error_witness :
    BaseTensorIndex.make ["qq"] [] ["qq", "sp"] [] ["qq", "t"] egM = .error ["qq"]
    ∧ ∃ u, BaseTensorIndex.make ["qq"] [] ["qq", "sp"] [] ["t"] egM = .ok u
        ∧ (∀ a ∈ u.prognostic, ∃ n, (n, a) ∈ egM ∧ n ∈ (["qq"] : List String))
        ∧ (∀ a ∈ u.forcing, ∃ n, (n, a) ∈ egM ∧ n ∈ (["qq", "sp"] : List String)) := by
  have h := invalid_includes_error ["qq"] [] ["qq", "sp"] [] ["qq", "t"] ["t"] egM
    (by decide) (by decide)
  exact ⟨h.1, h.2.2⟩

/-- C5: for every validly constructed TensorIndex with an injective mapping
(distinct keys, distinct values), each of the four role arrays satisfies
`roleIndexCorrect`: it is the ascending sort of the positions of the role
names that are mapping keys, every entry is the position of a name in the
role, and no position of a name outside the role appears. -/
theorem role_arrays_correct (prog diag forc targ includes : List String)
    (m : NameToIndex) {t : BaseTensorIndex}
    (hmk : BaseTensorIndex.make prog diag forc targ includes m = .ok t)
    (hk : (keys m).Nodup) (hv : valuesInjOn m) :
    roleIndexCorrect m prog t.prognostic
    ∧ roleIndexCorrect m diag t.diagnostic
    ∧ roleIndexCorrect m forc t.forcing
    ∧ roleIndexCorrect m targ t.targets := by
  obtain ⟨-, -, hp, hdg, hfo, hg, -⟩ := make_ok_fields hmk
  rw [hp, hdg, hfo, hg]
  exact ⟨build_idx_correct hk hv, build_idx_correct hk hv,
    build_idx_correct hk hv, build_idx_correct hk hv⟩

/-- C5 witness: the example construction with duplicate role names and a
role name (`"qq"`) absent from the mapping. -/
theorem role_arrays_correct_witness :
    roleIndexCorrect egM ["t", "t"] egTdup.prognostic
    ∧ roleIndexCorrect egM ["z"] egTdup.diagnostic
    ∧ roleIndexCorrect egM ["sp", "qq"] egTdup.forcing
    ∧ roleIndexCorrect egM ["u"] egTdup.targets :=
  role_arrays_correct ["t", "t"] ["z"] ["sp", "qq"] ["u"] ["u", "u", "t"] egM
    (t := egTdup) (by rfl) (by decide) (by decide)

/-- C6 counterexample: a validly constructed Input TensorIndex with a
non-empty `known_future_variables` list whose `length()` nevertheless equals
`len(full)`: empty role lists, two included variables, one known-future
variable gives `0 + 0 + 2*1 + 0 = 2 = len(full)`. -/
theorem input_length_can_equal_full_length :
    (InputTensorIndex.make [] [] [] [] ["a", "b"] [("a", 0), ("b", 1)] ["x"] []).map
        (fun t => (t.len, t.base.full.length)) = .ok (2, 2) := by
  rfl

/-- C6 amended: for an Input TensorIndex constructed through ModelIndex —
whose `includes` is forcing ++ derived-prognostic with the derived
prognostic disjoint from forcing — `length()` exceeds `len(full)` by
`2*len(known_future) + len(additional)`, hence differs from `len(full)`
whenever `known_future` or `additional` is non-empty. -/
theorem model_input_length_ne_full_length (d f g kf add : List String)
    (mIn mOut : NameToIndex) {w : ModelIndex}
    (hmk : ModelIndex.make d f g mIn mOut kf add = .ok w)
    (hne : kf ≠ [] ∨ add ≠ []) :
    w.input.len = w.input.base.full.length + 2 * kf.length + add.length
    ∧ w.input.len ≠ w.input.base.full.length := by
  obtain ⟨hin, -, -, -, -⟩ := modelIndex_make_ok hmk
  obtain ⟨hb, hkf, hadd⟩ := inputMake_ok hin
  obtain ⟨-, -, hp, -, hfo, -, hfull⟩ := make_ok_fields hb
  have hdisj : ∀ v, v ∈ f → v ∈ derive_prognostic f d g mIn → False := fun v hvf hvp =>
    (mem_derive_prognostic.mp hvp).2 (Or.inr (Or.inl hvf))
  have hlen : w.input.base.full.length
      = w.input.base.forcing.length + w.input.base.prognostic.length := by
    rw [hfull, hfo, hp, build_idx_length, build_idx_length, build_idx_length]
    exact length_filter_append_disjoint mIn f _ hdisj
  have hlen2 : w.input.len = w.input.base.prognostic.length
      + w.input.base.forcing.length + 2 * kf.length + add.length := by
    unfold InputTensorIndex.len
    rw [hkf, hadd]
  have hpos : 0 < 2 * kf.length + add.length := by
    rcases hne with h | h
    · have := List.length_pos.mpr h
      omega
    · have := List.length_pos.mpr h
      omega
  constructor
  · omega
  · omega

/-- C6 witness: the example ModelIndex with one known-future variable, where
the input length is 6 and `len(full)` is 4. -/
theorem model_input_length_ne_full_length_witness :
    egMI.input.len = egMI.input.base.full.length + 2 * (["sp"] : List String).length
        + ([] : List String).length
    ∧ egMI.input.len ≠ egMI.input.base.full.length :=
  model_input_length_ne_full_length ["z"] ["sp"] [] ["sp"] [] egM [("z", 0)]
    (w := egMI) (by rfl) (by decide)

/-- C7 counterexample: two validly constructed TensorIndex values whose
`forcing` arrays differ (`[]` versus `[0]`), yet `__eq__` returns `True`:
`torch.allclose` broadcasts the shape-`[1]` tensor against the shape-`[0]`
tensor, making the comparison vacuously true. So equality returning true is
not equivalent to elementwise equality of all five sequences. -/
theorem pyEq_true_on_unequal_sequences :
    (BaseTensorIndex.make ["a"] [] [] [] ["a"] [("a", 0)]).bind (fun A =>
      (BaseTensorIndex.make ["a"] [] ["a"] [] ["a"] [("a", 0)]).map (fun B =>
        (A.pyEq (some B), decide (A.forcing = B.forcing))))
      = .ok (.value true, false) := by
  rfl

/-- C7 amended: restricted to pairs whose five corresponding sequences have
equal lengths (so no broadcasting occurs) and whose positions are below
`10^5` (so the allclose tolerance is strictly finer than 1), `__eq__`
returns `True` exactly when all five sequences are elementwise equal; and
comparing a TensorIndex, or a VariableIndex input/output pair, against an
incompatible type yields `NotImplemented` rather than raising. -/
theorem pyEq_iff_sequences_equal (A B : BaseTensorIndex)
    (inp : InputTensorIndex) (outp : OutputTensorIndex)
    (h1 : A.prognostic.length = B.prognostic.length)
    (h2 : A.diagnostic.length = B.diagnostic.length)
    (h3 : A.forcing.length = B.forcing.length)
    (h4 : A.targets.length = B.targets.length)
    (h5 : A.full.length = B.full.length)
    (hsmall : ∀ x ∈ B.prognostic ++ B.diagnostic ++ B.forcing ++ B.targets ++ B.full,
      x < 100000) :
    (A.pyEq (some B) = .value true ↔
      (A.prognostic = B.prognostic ∧ A.diagnostic = B.diagnostic ∧ A.forcing = B.forcing
        ∧ A.targets = B.targets ∧ A.full = B.full))
    ∧ A.pyEq none = .notImplemented
    ∧ baseIndexPyEq (inp, outp) none = .notImplemented := by
  refine ⟨?_, rfl, rfl⟩
  have hs1 : ∀ x ∈ B.prognostic, x < 100000 := fun x hx => hsmall x (by simp [hx])
  have hs2 : ∀ x ∈ B.diagnostic, x < 100000 := fun x hx => hsmall x (by simp [hx])
  have hs3 : ∀ x ∈ B.forcing, x < 100000 := fun x hx => hsmall x (by simp [hx])
  have hs4 : ∀ x ∈ B.targets, x < 100000 := fun x hx => hsmall x (by simp [hx])
  have hs5 : ∀ x ∈ B.full, x < 100000 := fun x hx => hsmall x (by simp [hx])
  simp only [BaseTensorIndex.pyEq]
  simp only [allclose_of_length_eq h1, allclose_of_length_eq h2, allclose_of_length_eq h3,
    allclose_of_length_eq h4, allclose_of_length_eq h5]
  simp only [andThenClose_eq_value_true, lastClose_eq_value_true, Option.some.injEq]
  simp only [zip_all_close_iff h1 hs1, zip_all_close_iff h2 hs2, zip_all_close_iff h3 hs3,
    zip_all_close_iff h4 hs4, zip_all_close_iff h5 hs5]

/-- C7 amended witness: the example index compared with itself yields
`True`, and comparisons against an incompatible type yield
`NotImplemented`. -/
theorem pyEq_iff_sequences_equal_witness :
    (egT.pyEq (some egT) = .value true ↔
      (egT.prognostic = egT.prognostic ∧ egT.diagnostic = egT.diagnostic
        ∧ egT.forcing = egT.forcing ∧ egT.targets = egT.targets ∧ egT.full = egT.full))
    ∧ egT.pyEq none = .notImplemented
    ∧ baseIndexPyEq (egIn, egOut) none = .notImplemented :=
  pyEq_iff_sequences_equal egT egT egIn egOut rfl rfl rfl rfl rfl (by decide)

/-- C8: for every VariableIndex (DataIndex or ModelIndex), `todict` exports
exactly the keys `input` and `output`, each bound to the `todict` of the
corresponding TensorIndex; and for every TensorIndex, `todict` has exactly
the five role keys, each bound to the directly-accessed field (round-trip
between export and field access). -/
theorem todict_roundtrip (di : DataIndex) (mi : ModelIndex) (t : BaseTensorIndex) :
    di.todict.map Prod.fst = ["input", "output"]
    ∧ List.lookup "input" di.todict = some di.input.base.todict
    ∧ List.lookup "output" di.todict = some di.output.base.todict
    ∧ mi.todict.map Prod.fst = ["input", "output"]
    ∧ List.lookup "input" mi.todict = some mi.input.base.todict
    ∧ List.lookup "output" mi.todict = some mi.output.base.todict
    ∧ t.todict.map Prod.fst = ["prognostic", "diagnostic", "forcing", "targets", "full"]
    ∧ List.lookup "prognostic" t.todict = some t.prognostic
    ∧ List.lookup "diagnostic" t.todict = some t.diagnostic
    ∧ List.lookup "forcing" t.todict = some t.forcing
    ∧ List.lookup "targets" t.todict = some t.targets
    ∧ List.lookup "full" t.todict = some t.full := by
  refine ⟨rfl, rfl, ?_, rfl, rfl, ?_, rfl, rfl, ?_, ?_, ?_, ?_⟩ <;>
    simp [DataIndex.todict, ModelIndex.todict, BaseTensorIndex.todict, List.lookup]

/-- C9: (scenario one, over its own role lists `d f g` and mapping `m`) a
DataIndex construction with a forcing name absent from the mapping fails
with the invalid-includes error of its input TensorIndex (whose `includes`
is forcing ++ prognostic), the error listing exactly the missing forcing
names; (scenario two, over its own `d2 f2 g2` and mappings) a ModelIndex
construction whose forcing names are all input-mapping keys but where some
diagnostic or target name is absent from the output mapping fails with the
invalid-includes error of its output TensorIndex; and (scenario three, over
its own `d3 f3 g3` and mappings) any ModelIndex construction with a
diagnostic or target name absent from the output mapping never succeeds,
whatever its forcing list. -/
theorem role_name_errors_at_variable_index
    (d f g d2 f2 g2 d3 f3 g3 kf add kf3 add3 : List String)
    (m mIn mOut mIn3 mOut3 : NameToIndex)
    (hfbad : ∃ v ∈ f, ¬ v ∈ keys m)
    (hdt : ∃ v ∈ d2 ++ g2, ¬ v ∈ keys mOut)
    (hfin : ∀ v ∈ f2, v ∈ keys mIn)
    (hdt3 : ∃ v ∈ d3 ++ g3, ¬ v ∈ keys mOut3) :
    DataIndex.make d f g m = .error (f.filter fun v => decide (¬ v ∈ keys m))
    ∧ ModelIndex.make d2 f2 g2 mIn mOut kf add =
        .error ((d2 ++ g2).filter fun v => decide (¬ v ∈ keys mOut))
    ∧ (∀ w, ModelIndex.make d3 f3 g3 mIn3 mOut3 kf3 add3 ≠ .ok w) := by
  refine ⟨?_, ?_, ?_⟩
  · obtain ⟨v, hvf, hnk⟩ := hfbad
    have hnil : (derive_prognostic f d g m).filter (fun v => decide (¬ v ∈ keys m)) = [] := by
      rw [List.filter_eq_nil_iff]
      intro a ha
      simp only [decide_eq_true_eq, not_not]
      exact derive_prognostic_subset_keys a ha
    unfold DataIndex.make
    dsimp only
    rw [inputMake_error ⟨v, List.mem_append_left _ hvf, hnk⟩]
    dsimp only
    rw [List.filter_append, hnil, List.append_nil]
  · have hsub : ∀ v ∈ f2 ++ derive_prognostic f2 d2 g2 mIn, v ∈ keys mIn := by
      intro v hv
      rcases List.mem_append.mp hv with h | h
      · exact hfin v h
      · exact derive_prognostic_subset_keys v h
    unfold ModelIndex.make
    dsimp only
    rw [inputMake_ok_of_subset hsub]
    dsimp only
    rw [outputMake_error hdt]
  · intro w hw
    obtain ⟨-, hout, -, -, -⟩ := modelIndex_make_ok hw
    obtain ⟨v, hvdg, hnk⟩ := hdt3
    exact hnk (make_subset_of_ok (outputMake_ok hout) v hvdg)

/-- C9 witness: forcing name `"qq"` is not a key of the example mapping, so
the DataIndex fails with error `["qq"]`; the output mapping of the second
ModelIndex lacks `"z"` while its forcing is input-valid, so it fails with
error `["z"]`; hypothesis three is discharged with a forcing list that is
itself invalid for the input mapping. -/
theorem role_name_errors_at_variable_index_witness :
    DataIndex.make ["z"] ["qq"] [] egM = .error ["qq"]
    ∧ ModelIndex.make ["z"] ["qq"] [] [("qq", 0), ("t", 1)] [("x", 9)] [] [] =
        .error ["z"] := by
  have h := role_name_errors_at_variable_index ["z"] ["qq"] [] ["z"] ["qq"] []
    ["z"] ["qq"] [] [] [] [] [] egM [("qq", 0), ("t", 1)] [("x", 9)] [] [("x", 9)]
    (by decide) (by decide) (by decide) (by decide)
  exact ⟨h.1, h.2.1⟩

/-- C10: for every TensorIndex validly constructed over an injective mapping
(distinct keys, distinct values), each of the five index arrays is strictly
ascending and duplicate-free — with no assumption that `includes` or the
role lists are duplicate-free — and `_build_idx_from_list` depends only on
the set of names in its list argument: lists with the same members produce
the same array regardless of order and multiplicity. -/
theorem arrays_strict_and_set_determined
    (prog diag forc targ includes l1 l2 : List String) (m : NameToIndex)
    {t : BaseTensorIndex}
    (hmk : BaseTensorIndex.make prog diag forc targ includes m = .ok t)
    (hk : (keys m).Nodup) (hv : valuesInjOn m)
    (hiff1 : ∀ v ∈ l1, v ∈ l2) (hiff2 : ∀ v ∈ l2, v ∈ l1) :
    (t.prognostic.Sorted (· < ·) ∧ t.prognostic.Nodup)
    ∧ (t.diagnostic.Sorted (· < ·) ∧ t.diagnostic.Nodup)
    ∧ (t.forcing.Sorted (· < ·) ∧ t.forcing.Nodup)
    ∧ (t.targets.Sorted (· < ·) ∧ t.targets.Nodup)
    ∧ (t.full.Sorted (· < ·) ∧ t.full.Nodup)
    ∧ build_idx_from_list m l1 = build_idx_from_list m l2 := by
  obtain ⟨-, -, hp, hdg, hfo, hg, hfull⟩ := make_ok_fields hmk
  rw [hp, hdg, hfo, hg, hfull]
  exact ⟨⟨build_idx_strict hk hv, build_idx_nodup hk hv⟩,
    ⟨build_idx_strict hk hv, build_idx_nodup hk hv⟩,
    ⟨build_idx_strict hk hv, build_idx_nodup hk hv⟩,
    ⟨build_idx_strict hk hv, build_idx_nodup hk hv⟩,
    ⟨build_idx_strict hk hv, build_idx_nodup hk hv⟩,
    build_idx_congr fun v => ⟨hiff1 v, hiff2 v⟩⟩

/-- C10 witness: the example construction whose role lists and `includes`
contain duplicates, and two lists with the same members in different order
and multiplicity. -/
theorem arrays_strict_and_set_determined_witness :
    (egTdup.prognostic.Sorted (· < ·) ∧ egTdup.prognostic.Nodup)
    ∧ (egTdup.diagnostic.Sorted (· < ·) ∧ egTdup.diagnostic.Nodup)
    ∧ (egTdup.forcing.Sorted (· < ·) ∧ egTdup.forcing.Nodup)
    ∧ (egTdup.targets.Sorted (· < ·) ∧ egTdup.targets.Nodup)
    ∧ (egTdup.full.Sorted (· < ·) ∧ egTdup.full.Nodup)
    ∧ build_idx_from_list egM ["sp", "t"] = build_idx_from_list egM ["t", "sp", "t"] :=
  arrays_strict_and_set_determined ["t", "t"] ["z"] ["sp", "qq"] ["u"] ["u", "u", "t"]
    ["sp", "t"] ["t", "sp", "t"] egM (t := egTdup) (by rfl) (by decide) (by decide)
    (by decide) (by decide)

end AnemoiModels
